import Mathlib

/-!
# Lorentz Force Visualizer — shallow embedding and verification

This file embeds the simulation core of the LorentzForceVisualizer repository
(`Particle`, its RK4 integrator, the simulation-state operations, and the
scene import/export layer) as Lean definitions over the reals, and proves or
refutes the frozen specification claims about them.

JS numbers are modelled by `ℝ`; the trail-length capacity (a JS number that
the UI sets either to an integer or to `Infinity`) is modelled by
`WithTop ℕ`; a JS value that may be `undefined` (a missing document field)
or `NaN` (a failed `parseFloat`) is modelled by `Option`.
-/

noncomputable section

namespace LFV

/-- A field configuration `{ magnitude, angle_deg }` as stored in the globals
`electricField` and `magneticField`. -/
structure Field where
  magnitude : ℝ
  angle_deg : ℝ

/-- The `Particle` class: id, charge `q`, mass `m`, position `(x, y)`,
velocity `(vx, vy)`, the trail of past positions, and the selection flag. -/
structure Particle where
  id : String
  q : ℝ
  m : ℝ
  x : ℝ
  y : ℝ
  vx : ℝ
  vy : ℝ
  trail : List (ℝ × ℝ)
  selected : Bool

/-- The signed out-of-plane magnetic scalar as resolved inside
`Particle.calculateForce`: `Bz = B.magnitude` exactly when
`B.angle_deg === 90`, and `Bz = -B.magnitude` for every other angle. -/
def resolveBz (B : Field) : ℝ :=
  if B.angle_deg = 90 then B.magnitude else -B.magnitude

/-- `Particle.calculateForce(E, B)`: decomposes the electric field by its
angle (degrees converted to radians), resolves the magnetic field to the
signed scalar `Bz`, and returns the Lorentz force
`(q·(Ex + vy·Bz), q·(Ey − vx·Bz))`. Reads only `q`, `vx`, `vy` of `this`. -/
def Particle.calculateForce (p : Particle) (E B : Field) : ℝ × ℝ :=
  let E_rad := E.angle_deg * Real.pi / 180
  let Ex := E.magnitude * Real.cos E_rad
  let Ey := E.magnitude * Real.sin E_rad
  let Bz := resolveBz B
  (p.q * (Ex + p.vy * Bz), p.q * (Ey - p.vx * Bz))

/-- `Particle.update(dt, E, B)`: the velocity-only RK4 step.  The JS code
builds a `tempParticle` copy of `this` (same `q`) with trial velocities for
the k2–k4 force evaluations, divides each force by `this.m`, combines the
four accelerations Simpson-style, advances velocity, then advances position
once with the *new* velocity, and finally pushes the new position on the
trail, shifting the oldest entry when the trail exceeds the global
`trailLength` (`cap`). -/
def Particle.update (p : Particle) (dt : ℝ) (E B : Field) (cap : WithTop ℕ) :
    Particle :=
  let f1 := p.calculateForce E B
  let ax1 := f1.1 / p.m
  let ay1 := f1.2 / p.m
  let f2 := (Particle.calculateForce
    { p with vx := p.vx + ax1 * dt / 2, vy := p.vy + ay1 * dt / 2 }) E B
  let ax2 := f2.1 / p.m
  let ay2 := f2.2 / p.m
  let f3 := (Particle.calculateForce
    { p with vx := p.vx + ax2 * dt / 2, vy := p.vy + ay2 * dt / 2 }) E B
  let ax3 := f3.1 / p.m
  let ay3 := f3.2 / p.m
  let f4 := (Particle.calculateForce
    { p with vx := p.vx + ax3 * dt, vy := p.vy + ay3 * dt }) E B
  let ax4 := f4.1 / p.m
  let ay4 := f4.2 / p.m
  let ax := (ax1 + 2 * ax2 + 2 * ax3 + ax4) / 6
  let ay := (ay1 + 2 * ay2 + 2 * ay3 + ay4) / 6
  let vx' := p.vx + ax * dt
  let vy' := p.vy + ay * dt
  let x' := p.x + vx' * dt
  let y' := p.y + vy' * dt
  let trail1 := p.trail ++ [(x', y')]
  let trail' := if (trail1.length : WithTop ℕ) > cap then trail1.tail else trail1
  { p with x := x', y := y', vx := vx', vy := vy', trail := trail' }

/-- `n` consecutive calls to `Particle.update` with a fixed `dt`, field pair
and trail capacity (as performed by `n` animation frames or manual steps). -/
def Particle.iterSteps (p : Particle) (dt : ℝ) (E B : Field)
    (cap : WithTop ℕ) : ℕ → Particle
  | 0 => p
  | n + 1 => (p.iterSteps dt E B cap n).update dt E B cap

/-- The chronological list of the post-step positions produced by the first
`n` steps of a run: entry `k` is the position right after step `k + 1`. -/
def postPositions (p : Particle) (dt : ℝ) (E B : Field) (cap : WithTop ℕ)
    (n : ℕ) : List (ℝ × ℝ) :=
  (List.range n).map fun k =>
    ((p.iterSteps dt E B cap (k + 1)).x, (p.iterSteps dt E B cap (k + 1)).y)

/-- The mutable globals of the sketch: the particle list, the id counter,
`simulationTime`, `isPlaying`, `timeScale`, `trailLength`, and the two field
configurations. -/
structure SimState where
  particles : List Particle
  particleIdCounter : ℕ
  simulationTime : ℝ
  isPlaying : Bool
  timeScale : ℝ
  trailLength : WithTop ℕ
  electricField : Field
  magneticField : Field

/-- Canvas width in pixels. -/
def CANVAS_WIDTH : ℝ := 900

/-- Canvas height in pixels. -/
def CANVAS_HEIGHT : ℝ := 700

/-- Pixels per metre. -/
def SCALE : ℝ := 28

/-- `screenToWorld(sx, sy)`. -/
def screenToWorld (sx sy : ℝ) : ℝ × ℝ :=
  ((sx - CANVAS_WIDTH / 2) / SCALE, (CANVAS_HEIGHT / 2 - sy) / SCALE)

/-- `addParticle(q, m, vx, vy)`: appends one particle at the world point
under the screen centre, with the next id and an empty trail; performs no
validation of its own. -/
def addParticle (s : SimState) (q m vx vy : ℝ) : SimState :=
  let worldPos := screenToWorld (CANVAS_WIDTH / 2) (CANVAS_HEIGHT / 2)
  { s with
    particles := s.particles ++
      [{ id := "p" ++ toString s.particleIdCounter, q := q, m := m,
         x := worldPos.1, y := worldPos.2, vx := vx, vy := vy,
         trail := [], selected := false }],
    particleIdCounter := s.particleIdCounter + 1 }

/-- The `add-particle` click handler in the UI layer: parses the four inputs
(`none` models a `NaN` from `parseFloat`), alerts and returns without
calling `addParticle` when any parse failed or when `m ≤ 0`. -/
def clickAddParticle (s : SimState) (q m vx vy : Option ℝ) : SimState :=
  match q, m, vx, vy with
  | some q, some m, some vx, some vy =>
      if m ≤ 0 then s else addParticle s q m vx vy
  | _, _, _, _ => s

/-- `clearParticles()`. -/
def clearParticles (s : SimState) : SimState :=
  { s with particles := [], particleIdCounter := 0 }

/-- `resetSimulation()`: empties every particle's trail and zeroes
`simulationTime`. -/
def resetSimulation (s : SimState) : SimState :=
  { s with
    particles := s.particles.map (fun p => { p with trail := [] }),
    simulationTime := 0 }

/-- `togglePlayPause()`. -/
def togglePlayPause (s : SimState) : SimState :=
  { s with isPlaying := !s.isPlaying }

/-- `stepSimulation()`: unconditionally integrates every particle once with
`dt = (1/60) · timeScale` and advances `simulationTime`. -/
def stepSimulation (s : SimState) : SimState :=
  let dt := 1 / 60 * s.timeScale
  { s with
    particles := s.particles.map
      (fun p => p.update dt s.electricField s.magneticField s.trailLength),
    simulationTime := s.simulationTime + dt }

/-- The simulation-state effect of one `draw()` frame: when `isPlaying`, it
updates every particle with `dt = (1/60) · timeScale` and advances
`simulationTime`; otherwise the frame only renders and the state is
untouched. -/
def tick (s : SimState) : SimState :=
  if s.isPlaying then
    let dt := 1 / 60 * s.timeScale
    { s with
      particles := s.particles.map
        (fun p => p.update dt s.electricField s.magneticField s.trailLength),
      simulationTime := s.simulationTime + dt }
  else s

/-- `setTimeScale(scale)`. -/
def setTimeScale (s : SimState) (scale : ℝ) : SimState :=
  { s with timeScale := scale }

/-- `setTrailLength(length)`: replaces the capacity; it does not touch any
existing trail. -/
def setTrailLength (s : SimState) (len : WithTop ℕ) : SimState :=
  { s with trailLength := len }

/-- `setElectricField(magnitude, angle_deg)`. -/
def setElectricField (s : SimState) (magnitude angle_deg : ℝ) : SimState :=
  { s with electricField := { magnitude := magnitude, angle_deg := angle_deg } }

/-- `setMagneticField(magnitude, angle_deg)`. -/
def setMagneticField (s : SimState) (magnitude angle_deg : ℝ) : SimState :=
  { s with magneticField := { magnitude := magnitude, angle_deg := angle_deg } }

/-- The trail invariant of the spec: every particle's trail length is at
most the current `trailLength` capacity. -/
def trailInv (s : SimState) : Prop :=
  ∀ p ∈ s.particles, (p.trail.length : WithTop ℕ) ≤ s.trailLength

/-- One particle record of an exported scene document. -/
structure PData where
  id : String
  q : ℝ
  m : ℝ
  x : ℝ
  y : ℝ
  vx : ℝ
  vy : ℝ

/-- The `fields` object of a scene document. -/
structure SceneFields where
  E : Field
  B : Field

/-- An imported scene document; `none` in a field models that the JSON lacks
it (reading through a missing object raises a `TypeError`). -/
structure Scene where
  fields : Option SceneFields
  particles : Option (List PData)
  simulationTime : Option ℝ
  timeScale : Option ℝ
  trailLength : Option (WithTop ℕ)

/-- Rebuild a `Particle` from imported data, as the `new Particle(...)` call
inside `importScene` does. -/
def particleOfData (d : PData) : Particle :=
  { id := d.id, q := d.q, m := d.m, x := d.x, y := d.y,
    vx := d.vx, vy := d.vy, trail := [], selected := false }

/-- `importScene(file)`'s handler body: applies the field settings, clears
the particles, rebuilds them, then restores the scalar parameters (`x || d`
defaulting for a field the document lacks).  Reading through a missing
`fields` or `particles` member throws at that point; the `catch` reports the
error (the returned flag) and keeps whatever state the statements before the
throw already produced. -/
def importScene (s : SimState) (scene : Scene) : SimState × Bool :=
  match scene.fields with
  | none => (s, true)
  | some fs =>
    let s1 := setElectricField s fs.E.magnitude fs.E.angle_deg
    let s2 := setMagneticField s1 fs.B.magnitude fs.B.angle_deg
    let s3 := clearParticles s2
    match scene.particles with
    | none => (s3, true)
    | some ps =>
      let s4 := { s3 with particles := ps.map particleOfData }
      let s5 := setTrailLength
          (setTimeScale
            { s4 with simulationTime := scene.simulationTime.getD 0 }
            (scene.timeScale.getD 1))
          (scene.trailLength.getD 200)
      (s5, false)

/-- A malformed scene document: it has a `fields` object but no `particles`
array. -/
def sceneBad : Scene :=
  { fields := some { E := { magnitude := 2, angle_deg := 0 },
                     B := { magnitude := 3, angle_deg := 90 } },
    particles := none, simulationTime := none, timeScale := none,
    trailLength := none }

/-- A state whose one particle has a two-entry trail and whose capacity is
5, used to exhibit the effect of a capacity-reducing `setTrailLength`. -/
def sTrail : SimState :=
  { particles := [{ id := "p0", q := 1, m := 1, x := 1, y := 0, vx := 1,
                    vy := 0, trail := [(0, 0), (1, 0)], selected := false }],
    particleIdCounter := 1, simulationTime := 0, isPlaying := false,
    timeScale := 1, trailLength := 5,
    electricField := { magnitude := 0, angle_deg := 0 },
    magneticField := { magnitude := 0, angle_deg := 90 } }

/-- A sample particle shared by the concrete witnesses below. -/
def pEx : Particle :=
  { id := "p0", q := 1, m := 1, x := 0, y := 0, vx := 1, vy := 0,
    trail := [], selected := false }

/-- A zero-magnitude electric field. -/
def EZero : Field := { magnitude := 0, angle_deg := 0 }

/-- A zero-magnitude magnetic field pointing out of the plane. -/
def BZero : Field := { magnitude := 0, angle_deg := 90 }

/-- A sample simulation state with one particle, shared by the witnesses. -/
def sEx : SimState :=
  { particles := [pEx], particleIdCounter := 1, simulationTime := 0,
    isPlaying := false, timeScale := 1, trailLength := 200,
    electricField := EZero, magneticField := BZero }

/-- C10: the force computation resolves the signed out-of-plane scalar as
`+magnitude` exactly when `angle_deg = 90` and as `−magnitude` for every
other angle (`270`, but also `0`, `45`, …): the single exact-equality test
`angle_deg === 90` decides the direction. -/
theorem resolveBz_cases (B : Field) :
    (B.angle_deg = 90 → resolveBz B = B.magnitude) ∧
    (B.angle_deg ≠ 90 → resolveBz B = -B.magnitude) := by
  constructor <;> intro h <;> simp [resolveBz, h]

theorem resolveBz_cases_witness :
    resolveBz { magnitude := 3, angle_deg := 90 } = 3 ∧
    resolveBz { magnitude := 3, angle_deg := 270 } = -3 ∧
    resolveBz { magnitude := 3, angle_deg := 0 } = -3 ∧
    resolveBz { magnitude := 3, angle_deg := 45 } = -3 :=
  ⟨(resolveBz_cases _).1 rfl,
   (resolveBz_cases _).2 (by norm_num),
   (resolveBz_cases _).2 (by norm_num),
   (resolveBz_cases _).2 (by norm_num)⟩

/-- C2: `calculateForce` returns exactly
`(q·(E·cos θ + vy·Bz), q·(E·sin θ − vx·Bz))` with `θ` the electric angle in
radians and `Bz` the resolved signed magnetic scalar, and its value depends
only on the particle's `q`, `vx`, `vy` — not on its mass, position, trail or
selection (it is a pure function in the embedding, so it has no side
effects and cannot mutate `E` or `B`). -/
theorem calculateForce_formula (p : Particle) (E B : Field) :
    p.calculateForce E B =
      (p.q * (E.magnitude * Real.cos (E.angle_deg * Real.pi / 180) +
          p.vy * resolveBz B),
       p.q * (E.magnitude * Real.sin (E.angle_deg * Real.pi / 180) -
          p.vx * resolveBz B)) ∧
    ∀ p' : Particle, p'.q = p.q → p'.vx = p.vx → p'.vy = p.vy →
      Particle.calculateForce p' E B = p.calculateForce E B := by
  refine ⟨rfl, fun p' hq hvx hvy => ?_⟩
  simp [Particle.calculateForce, hq, hvx, hvy]

theorem calculateForce_formula_witness :
    Particle.calculateForce
      { id := "b", q := 2, m := 9, x := 8, y := 7, vx := 3, vy := 4,
        trail := [(1, 1)], selected := true }
      { magnitude := 5, angle_deg := 0 } { magnitude := 7, angle_deg := 90 } =
    Particle.calculateForce
      { id := "a", q := 2, m := 1, x := 0, y := 0, vx := 3, vy := 4,
        trail := [], selected := false }
      { magnitude := 5, angle_deg := 0 } { magnitude := 7, angle_deg := 90 } :=
  (calculateForce_formula _ _ _).2 _ rfl rfl rfl

/-- C9: one integrator step only rewrites position, velocity and the trail;
the particle's `id`, charge, mass and `selected` flag are returned
unchanged, and — the embedding being pure — the field arguments `E` and `B`
are never mutated. -/
theorem update_frame (p : Particle) (dt : ℝ) (E B : Field) (cap : WithTop ℕ) :
    (p.update dt E B cap).id = p.id ∧
    (p.update dt E B cap).q = p.q ∧
    (p.update dt E B cap).m = p.m ∧
    (p.update dt E B cap).selected = p.selected :=
  ⟨rfl, rfl, rfl, rfl⟩

/-- C5: the manual single step `stepSimulation` performs exactly the state
transformation of one playing `draw` tick (`dt = (1/60)·timeScale`, one
`update` per particle, `simulationTime += dt`), unconditionally and without
changing `isPlaying`; a tick with `isPlaying = false` is a no-op. -/
theorem stepSimulation_tick_equiv (s : SimState) :
    stepSimulation s =
      { tick { s with isPlaying := true } with isPlaying := s.isPlaying } ∧
    (stepSimulation s).isPlaying = s.isPlaying ∧
    (s.isPlaying = false → tick s = s) := by
  refine ⟨?_, rfl, fun h => ?_⟩
  · simp [stepSimulation, tick]
  · simp [tick, h]

theorem stepSimulation_tick_equiv_witness : tick sEx = sEx :=
  (stepSimulation_tick_equiv sEx).2.2 rfl

/-- C6: `resetSimulation` zeroes `simulationTime` and empties every
particle's trail, and changes nothing else: the particle list keeps its
length and order, each particle keeps all its other fields, and the field
configuration, `timeScale`, `trailLength`, `isPlaying` and the id counter
are untouched. -/
theorem resetSimulation_spec (s : SimState) :
    (resetSimulation s).simulationTime = 0 ∧
    (∀ p ∈ (resetSimulation s).particles, p.trail = ([] : List (ℝ × ℝ))) ∧
    (resetSimulation s).particles.length = s.particles.length ∧
    (∀ i : ℕ, ∀ p : Particle, s.particles[i]? = some p →
      (resetSimulation s).particles[i]? = some { p with trail := [] }) ∧
    (resetSimulation s).particleIdCounter = s.particleIdCounter ∧
    (resetSimulation s).isPlaying = s.isPlaying ∧
    (resetSimulation s).timeScale = s.timeScale ∧
    (resetSimulation s).trailLength = s.trailLength ∧
    (resetSimulation s).electricField = s.electricField ∧
    (resetSimulation s).magneticField = s.magneticField := by
  refine ⟨rfl, ?_, ?_, ?_, rfl, rfl, rfl, rfl, rfl, rfl⟩
  · intro p hp
    simp only [resetSimulation, List.mem_map] at hp
    obtain ⟨q, hq, rfl⟩ := hp
    rfl
  · simp [resetSimulation]
  · intro i p hp
    simp only [resetSimulation, List.getElem?_map, hp, Option.map_some']

theorem resetSimulation_spec_witness :
    (resetSimulation sEx).particles[0]? = some { pEx with trail := [] } :=
  (resetSimulation_spec sEx).2.2.2.1 0 pEx rfl

/-- C1: one call to `Particle.update` is exactly the velocity-only RK4
scheme: with `a(v) = calculateForce(q, v, E, B) / m`, it takes
`k1 = a(v0)`, `k2 = a(v0 + k1·dt/2)`, `k3 = a(v0 + k2·dt/2)`,
`k4 = a(v0 + k3·dt)`, sets `v1 = v0 + dt·(k1 + 2k2 + 2k3 + k4)/6`, and then
performs the single explicit position update `x1 = x0 + v1·dt` with the new
velocity. -/
theorem update_rk4 (p : Particle) (dt : ℝ) (E B : Field) (cap : WithTop ℕ)
    (hm : 0 < p.m) :
    let a : ℝ × ℝ → ℝ × ℝ := fun v =>
      ((Particle.calculateForce { p with vx := v.1, vy := v.2 } E B).1 / p.m,
       (Particle.calculateForce { p with vx := v.1, vy := v.2 } E B).2 / p.m)
    let k1 := a (p.vx, p.vy)
    let k2 := a (p.vx + k1.1 * dt / 2, p.vy + k1.2 * dt / 2)
    let k3 := a (p.vx + k2.1 * dt / 2, p.vy + k2.2 * dt / 2)
    let k4 := a (p.vx + k3.1 * dt, p.vy + k3.2 * dt)
    let v1 : ℝ × ℝ := (p.vx + dt * (k1.1 + 2 * k2.1 + 2 * k3.1 + k4.1) / 6,
                       p.vy + dt * (k1.2 + 2 * k2.2 + 2 * k3.2 + k4.2) / 6)
    (p.update dt E B cap).vx = v1.1 ∧
    (p.update dt E B cap).vy = v1.2 ∧
    (p.update dt E B cap).x = p.x + v1.1 * dt ∧
    (p.update dt E B cap).y = p.y + v1.2 * dt := by
  simp only [Particle.update, Particle.calculateForce]
  refine ⟨?_, ?_, ?_, ?_⟩ <;> ring

theorem update_rk4_witness :
    0 < pEx.m ∧
    (let a : ℝ × ℝ → ℝ × ℝ := fun v =>
      ((Particle.calculateForce { pEx with vx := v.1, vy := v.2 } EZero BZero).1 / pEx.m,
       (Particle.calculateForce { pEx with vx := v.1, vy := v.2 } EZero BZero).2 / pEx.m)
    let k1 := a (pEx.vx, pEx.vy)
    let k2 := a (pEx.vx + k1.1 * 1 / 2, pEx.vy + k1.2 * 1 / 2)
    let k3 := a (pEx.vx + k2.1 * 1 / 2, pEx.vy + k2.2 * 1 / 2)
    let k4 := a (pEx.vx + k3.1 * 1, pEx.vy + k3.2 * 1)
    let v1 : ℝ × ℝ := (pEx.vx + 1 * (k1.1 + 2 * k2.1 + 2 * k3.1 + k4.1) / 6,
                       pEx.vy + 1 * (k1.2 + 2 * k2.2 + 2 * k3.2 + k4.2) / 6)
    (pEx.update 1 EZero BZero 200).vx = v1.1 ∧
    (pEx.update 1 EZero BZero 200).vy = v1.2 ∧
    (pEx.update 1 EZero BZero 200).x = pEx.x + v1.1 * 1 ∧
    (pEx.update 1 EZero BZero 200).y = pEx.y + v1.2 * 1) :=
  ⟨by norm_num [pEx], update_rk4 pEx 1 EZero BZero 200 (by norm_num [pEx])⟩

/-- Helper: with both field magnitudes zero, one `update` keeps the velocity
and moves the position by `(vx·dt, vy·dt)`. -/
theorem update_zeroField (p : Particle) (dt : ℝ) (E B : Field)
    (cap : WithTop ℕ) (hE : E.magnitude = 0) (hB : B.magnitude = 0) :
    (p.update dt E B cap).vx = p.vx ∧ (p.update dt E B cap).vy = p.vy ∧
    (p.update dt E B cap).x = p.x + p.vx * dt ∧
    (p.update dt E B cap).y = p.y + p.vy * dt := by
  refine ⟨?_, ?_, ?_, ?_⟩ <;>
    simp [Particle.update, Particle.calculateForce, resolveBz, hE, hB]

/-- C4: with `E = 0` and `B = 0`, every step leaves the velocity unchanged
and advances the position by exactly `(vx·dt, vy·dt)`, so after `n` steps
the position is `(x0 + vx0·n·dt, y0 + vy0·n·dt)`. -/
theorem iterSteps_zeroField (p : Particle) (dt : ℝ) (E B : Field)
    (cap : WithTop ℕ) (n : ℕ) (hm : 0 < p.m)
    (hE : E.magnitude = 0) (hB : B.magnitude = 0) :
    (p.iterSteps dt E B cap n).vx = p.vx ∧
    (p.iterSteps dt E B cap n).vy = p.vy ∧
    (p.iterSteps dt E B cap n).x = p.x + p.vx * (n * dt) ∧
    (p.iterSteps dt E B cap n).y = p.y + p.vy * (n * dt) := by
  induction n with
  | zero => simp [Particle.iterSteps]
  | succ n ih =>
    obtain ⟨ihvx, ihvy, ihx, ihy⟩ := ih
    have h := update_zeroField (p.iterSteps dt E B cap n) dt E B cap hE hB
    obtain ⟨hvx, hvy, hx, hy⟩ := h
    refine ⟨?_, ?_, ?_, ?_⟩
    · rw [Particle.iterSteps, hvx, ihvx]
    · rw [Particle.iterSteps, hvy, ihvy]
    · rw [Particle.iterSteps, hx, ihx, ihvx]
      push_cast
      ring
    · rw [Particle.iterSteps, hy, ihy, ihvy]
      push_cast
      ring

theorem iterSteps_zeroField_witness :
    0 < pEx.m ∧ EZero.magnitude = 0 ∧ BZero.magnitude = 0 ∧
    ((pEx.iterSteps 1 EZero BZero 200 2).vx = pEx.vx ∧
     (pEx.iterSteps 1 EZero BZero 200 2).vy = pEx.vy ∧
     (pEx.iterSteps 1 EZero BZero 200 2).x = pEx.x + pEx.vx * ((2 : ℕ) * (1 : ℝ)) ∧
     (pEx.iterSteps 1 EZero BZero 200 2).y = pEx.y + pEx.vy * ((2 : ℕ) * (1 : ℝ))) :=
  ⟨by norm_num [pEx], rfl, rfl,
   iterSteps_zeroField pEx 1 EZero BZero 200 2 (by norm_num [pEx]) rfl rfl⟩

/-- Helper: the trail after one `update` is the old trail with the new
post-step position pushed, with the oldest entry shifted off when the pushed
trail exceeds the capacity. -/
theorem update_trail_eq (p : Particle) (dt : ℝ) (E B : Field)
    (cap : WithTop ℕ) :
    (p.update dt E B cap).trail =
      if (((p.trail ++ [((p.update dt E B cap).x, (p.update dt E B cap).y)]).length : WithTop ℕ) > cap)
      then (p.trail ++ [((p.update dt E B cap).x, (p.update dt E B cap).y)]).tail
      else p.trail ++ [((p.update dt E B cap).x, (p.update dt E B cap).y)] :=
  rfl

/-- Helper: one `update` preserves the bound `trail.length ≤ cap`. -/
theorem update_trail_length_le (p : Particle) (dt : ℝ) (E B : Field)
    (cap : WithTop ℕ) (h : (p.trail.length : WithTop ℕ) ≤ cap) :
    ((p.update dt E B cap).trail.length : WithTop ℕ) ≤ cap := by
  rw [update_trail_eq]
  split_ifs with hgt
  · simpa using h
  · exact not_lt.mp hgt

/-- Helper: `postPositions` over `n + 1` steps is the list over `n` steps
with the position after step `n + 1` appended. -/
theorem postPositions_succ (p : Particle) (dt : ℝ) (E B : Field)
    (cap : WithTop ℕ) (n : ℕ) :
    postPositions p dt E B cap (n + 1) =
      postPositions p dt E B cap n ++
        [((p.iterSteps dt E B cap (n + 1)).x, (p.iterSteps dt E B cap (n + 1)).y)] := by
  simp [postPositions, List.range_succ]

/-- Helper: `postPositions` over `n` steps has length `n`. -/
theorem postPositions_length (p : Particle) (dt : ℝ) (E B : Field)
    (cap : WithTop ℕ) (n : ℕ) :
    (postPositions p dt E B cap n).length = n := by
  simp [postPositions]

/-- Helper: a run from an empty trail with finite capacity `L` leaves in the
trail exactly the suffix of the chronological post-step positions past index
`n - L`. -/
theorem iterSteps_trail_drop (p : Particle) (dt : ℝ) (E B : Field)
    (L n : ℕ) (h0 : p.trail = []) :
    (p.iterSteps dt E B (L : WithTop ℕ) n).trail =
      (postPositions p dt E B (L : WithTop ℕ) n).drop (n - L) := by
  induction n with
  | zero => simpa [Particle.iterSteps, postPositions]
  | succ n ih =>
    have hlen : (postPositions p dt E B (L : WithTop ℕ) n).length = n :=
      postPositions_length p dt E B _ n
    rw [Particle.iterSteps, update_trail_eq, ih]
    rw [← Particle.iterSteps]
    have hdrop :
        (postPositions p dt E B (L : WithTop ℕ) n).drop (n - L) ++
          [((p.iterSteps dt E B (L : WithTop ℕ) (n + 1)).x,
            (p.iterSteps dt E B (L : WithTop ℕ) (n + 1)).y)] =
        (postPositions p dt E B (L : WithTop ℕ) (n + 1)).drop (n - L) := by
      rw [postPositions_succ, List.drop_append_of_le_length (by omega)]
    rw [hdrop]
    have hlen1 : (postPositions p dt E B (L : WithTop ℕ) (n + 1)).length = n + 1 :=
      postPositions_length p dt E B _ (n + 1)
    rcases lt_or_le n L with hn | hn
    · have hnat :
          ¬ (L < ((postPositions p dt E B (L : WithTop ℕ) (n + 1)).drop (n - L)).length) := by
        simp only [List.length_drop, hlen1]
        omega
      have hcond :
          ¬ ((((postPositions p dt E B (L : WithTop ℕ) (n + 1)).drop (n - L)).length : WithTop ℕ) >
            (L : WithTop ℕ)) := fun hc => hnat (by exact_mod_cast hc)
      have harg : n - L = n + 1 - L := by omega
      rw [if_neg hcond, harg]
    · have hnat :
          L < ((postPositions p dt E B (L : WithTop ℕ) (n + 1)).drop (n - L)).length := by
        simp only [List.length_drop, hlen1]
        omega
      have hcond :
          ((((postPositions p dt E B (L : WithTop ℕ) (n + 1)).drop (n - L)).length : WithTop ℕ) >
            (L : WithTop ℕ)) := by exact_mod_cast hnat
      rw [if_pos hcond, List.tail_drop]
      congr 1
      omega

/-- Helper: a run from an empty trail with unbounded capacity keeps the full
chronological list of post-step positions (no eviction ever occurs). -/
theorem iterSteps_trail_top (p : Particle) (dt : ℝ) (E B : Field) (n : ℕ)
    (h0 : p.trail = []) :
    (p.iterSteps dt E B ⊤ n).trail = postPositions p dt E B ⊤ n := by
  induction n with
  | zero => simpa [Particle.iterSteps, postPositions]
  | succ n ih =>
    rw [Particle.iterSteps, update_trail_eq, ih, ← Particle.iterSteps,
      ← postPositions_succ]
    exact if_neg not_top_lt

/-- C3 as stated is false at this input: the invariant
`trail.length ≤ trailLength` does not survive every `setTrailLength` call —
`setTrailLength` never trims an existing trail, so reducing the capacity
from 5 to 1 below a current trail length of 2 breaks the invariant. -/
theorem trailInv_setTrailLength_cex :
    trailInv sTrail ∧ ¬ trailInv (setTrailLength sTrail 1) := by
  constructor
  · intro p hp
    simp only [sTrail, List.mem_singleton] at hp
    subst hp
    norm_num [sTrail]
  · intro h
    have h2 := h { id := "p0", q := 1, m := 1, x := 1, y := 0, vx := 1,
                   vy := 0, trail := [(0, 0), (1, 0)], selected := false }
      (by simp [setTrailLength, sTrail])
    rw [setTrailLength] at h2
    norm_num at h2

/-- C3 (amended): each integrator step pushes exactly one entry — the new
post-step position — shifting the oldest entry when over capacity; a step
preserves `trail.length ≤ trailLength`; from an empty trail with fixed
finite capacity `L`, after `n` steps the trail is exactly the suffix past
index `n - L` of the chronological post-step positions (so length `L`, the
`L` most recent, once `L ≤ n`); with unbounded capacity the trail is the
whole chronological list of length `n` and no eviction ever occurs; and a
`setTrailLength` call preserves the invariant provided the new capacity is
at least every current trail length (the call never trims a trail, which is
why an arbitrary capacity reduction can break the invariant). -/
theorem trail_spec (p : Particle) (dt : ℝ) (E B : Field) (cap : WithTop ℕ)
    (L n : ℕ) (s : SimState) (len : WithTop ℕ) :
    ((p.update dt E B cap).trail =
        p.trail ++ [((p.update dt E B cap).x, (p.update dt E B cap).y)] ∨
      (p.update dt E B cap).trail =
        (p.trail ++ [((p.update dt E B cap).x, (p.update dt E B cap).y)]).tail) ∧
    ((p.trail.length : WithTop ℕ) ≤ cap →
      ((p.update dt E B cap).trail.length : WithTop ℕ) ≤ cap) ∧
    (p.trail = [] →
      (p.iterSteps dt E B (L : WithTop ℕ) n).trail =
        (postPositions p dt E B (L : WithTop ℕ) n).drop (n - L)) ∧
    (p.trail = [] → L ≤ n →
      (p.iterSteps dt E B (L : WithTop ℕ) n).trail.length = L) ∧
    (p.trail = [] →
      (p.iterSteps dt E B ⊤ n).trail = postPositions p dt E B ⊤ n) ∧
    (p.trail = [] → (p.iterSteps dt E B ⊤ n).trail.length = n) ∧
    (postPositions p dt E B cap n).length = n ∧
    (trailInv s → (∀ q ∈ s.particles, (q.trail.length : WithTop ℕ) ≤ len) →
      trailInv (setTrailLength s len)) := by
  refine ⟨?_, update_trail_length_le p dt E B cap,
    iterSteps_trail_drop p dt E B L n, ?_, iterSteps_trail_top p dt E B n,
    ?_, postPositions_length p dt E B cap n, ?_⟩
  · rw [update_trail_eq]
    split_ifs with hgt
    · exact Or.inr rfl
    · exact Or.inl rfl
  · intro h0 hLn
    rw [iterSteps_trail_drop p dt E B L n h0, List.length_drop,
      postPositions_length]
    omega
  · intro h0
    rw [iterSteps_trail_top p dt E B n h0, postPositions_length]
  · intro _ hall q hq
    exact hall q hq

theorem trail_spec_witness :
    ((pEx.update 1 EZero BZero 200).trail =
        pEx.trail ++ [((pEx.update 1 EZero BZero 200).x, (pEx.update 1 EZero BZero 200).y)] ∨
      (pEx.update 1 EZero BZero 200).trail =
        (pEx.trail ++ [((pEx.update 1 EZero BZero 200).x, (pEx.update 1 EZero BZero 200).y)]).tail) ∧
    ((pEx.update 1 EZero BZero 200).trail.length : WithTop ℕ) ≤ 200 ∧
    (pEx.iterSteps 1 EZero BZero ((1 : ℕ) : WithTop ℕ) 2).trail =
      (postPositions pEx 1 EZero BZero ((1 : ℕ) : WithTop ℕ) 2).drop (2 - 1) ∧
    (pEx.iterSteps 1 EZero BZero ((1 : ℕ) : WithTop ℕ) 2).trail.length = 1 ∧
    (pEx.iterSteps 1 EZero BZero ⊤ 2).trail = postPositions pEx 1 EZero BZero ⊤ 2 ∧
    (pEx.iterSteps 1 EZero BZero ⊤ 2).trail.length = 2 ∧
    (postPositions pEx 1 EZero BZero 200 2).length = 2 ∧
    trailInv (setTrailLength sEx 300) := by
  have h := trail_spec pEx 1 EZero BZero 200 1 2 sEx 300
  exact ⟨h.1, h.2.1 (by norm_num [pEx]), h.2.2.1 rfl, h.2.2.2.1 rfl (by norm_num),
    h.2.2.2.2.1 rfl, h.2.2.2.2.2.1 rfl, h.2.2.2.2.2.2.1,
    h.2.2.2.2.2.2.2 (by norm_num [trailInv, sEx, pEx])
      (by norm_num [sEx, pEx])⟩

/-- C7 fails as stated: importing a scene that has a `fields` object but no
`particles` array reports the error, yet does not leave the prior state
untouched — the field settings are already applied and the particle list
already cleared at the failure point. -/
theorem importScene_cex :
    (importScene sEx sceneBad).2 = true ∧
    (importScene sEx sceneBad).1.particles.length = 0 ∧
    sEx.particles.length = 1 ∧
    (importScene sEx sceneBad).1.electricField.magnitude = 2 ∧
    sEx.electricField.magnitude = 0 :=
  ⟨rfl, rfl, rfl, rfl, rfl⟩

/-- C7 (amended): a malformed scene is always reported to the caller, and a
scene missing the `fields` object is rejected before any mutation; but
the import is not atomic — when `fields` is present and the `particles`
array is missing, the field settings have been applied and the particle
collection cleared by the time the import aborts. -/
theorem importScene_error_spec (s : SimState) (scene : Scene) :
    (scene.fields = none → importScene s scene = (s, true)) ∧
    (∀ fs, scene.fields = some fs → scene.particles = none →
      importScene s scene =
        (clearParticles
          (setMagneticField
            (setElectricField s fs.E.magnitude fs.E.angle_deg)
            fs.B.magnitude fs.B.angle_deg), true)) ∧
    ((importScene s scene).2 = true ↔
      scene.fields = none ∨ scene.particles = none) := by
  refine ⟨fun h => ?_, fun fs hf hp => ?_, ?_⟩
  · simp [importScene, h]
  · simp [importScene, hf, hp]
  · rcases hf : scene.fields with _ | fs
    · simp [importScene, hf]
    · rcases hp : scene.particles with _ | ps <;> simp [importScene, hf, hp]

theorem importScene_error_spec_witness :
    importScene sEx { fields := none, particles := none,
                      simulationTime := none, timeScale := none,
                      trailLength := none } = (sEx, true) ∧
    importScene sEx sceneBad =
      (clearParticles (setMagneticField (setElectricField sEx 2 0) 3 90),
        true) ∧
    ((importScene sEx sceneBad).2 = true ↔
      sceneBad.fields = none ∨ sceneBad.particles = none) :=
  ⟨(importScene_error_spec sEx _).1 rfl,
   (importScene_error_spec sEx sceneBad).2.1
     { E := { magnitude := 2, angle_deg := 0 },
       B := { magnitude := 3, angle_deg := 90 } } rfl rfl,
   (importScene_error_spec sEx sceneBad).2.2⟩

/-- C8 fails as stated: `addParticle` itself performs no mass validation —
called directly with mass `−1` it appends a particle carrying that mass to
the collection. -/
theorem addParticle_negMass_cex :
    (addParticle sEx 1 (-1) 0 0).particles.length = sEx.particles.length + 1 ∧
    ∃ p ∈ (addParticle sEx 1 (-1) 0 0).particles, p.m = -1 := by
  refine ⟨by simp [addParticle], ?_⟩
  refine ⟨{ id := "p" ++ toString sEx.particleIdCounter, q := 1, m := -1,
            x := (screenToWorld (CANVAS_WIDTH / 2) (CANVAS_HEIGHT / 2)).1,
            y := (screenToWorld (CANVAS_WIDTH / 2) (CANVAS_HEIGHT / 2)).2,
            vx := 0, vy := 0, trail := [], selected := false }, ?_, rfl⟩
  simp [addParticle]

/-- C8 (amended): the mass/NaN validation lives in the UI `add-particle`
click handler, which refuses to call `addParticle` when a parse failed or
`m ≤ 0`, leaving the state unchanged; `addParticle` itself validates
nothing and always appends exactly one particle — spawned at the world
origin (the image of the screen centre), with the supplied charge, mass and
velocity, an empty trail, and the next id. -/
theorem addParticle_boundary_spec (s : SimState) (q m vx vy : ℝ)
    (a b c d : Option ℝ) :
    (m ≤ 0 → clickAddParticle s (some q) (some m) (some vx) (some vy) = s) ∧
    (a = none ∨ b = none ∨ c = none ∨ d = none →
      clickAddParticle s a b c d = s) ∧
    (0 < m → clickAddParticle s (some q) (some m) (some vx) (some vy) =
      addParticle s q m vx vy) ∧
    (addParticle s q m vx vy).particles =
      s.particles ++
        [{ id := "p" ++ toString s.particleIdCounter, q := q, m := m, x := 0,
           y := 0, vx := vx, vy := vy, trail := [], selected := false }] ∧
    (addParticle s q m vx vy).particleIdCounter = s.particleIdCounter + 1 := by
  have hx : (screenToWorld (CANVAS_WIDTH / 2) (CANVAS_HEIGHT / 2)).1 = 0 := by
    norm_num [screenToWorld, CANVAS_WIDTH, SCALE]
  have hy : (screenToWorld (CANVAS_WIDTH / 2) (CANVAS_HEIGHT / 2)).2 = 0 := by
    norm_num [screenToWorld, CANVAS_HEIGHT, SCALE]
  refine ⟨fun hm => ?_, fun h => ?_, fun hm => ?_, ?_, rfl⟩
  · simp [clickAddParticle, hm]
  · rcases a with _ | av <;> rcases b with _ | bv <;> rcases c with _ | cv <;>
      rcases d with _ | dv <;> first | rfl | (exfalso; simp at h)
  · simp only [clickAddParticle]
    rw [if_neg (not_le.mpr hm)]
  · simp [addParticle, hx, hy]

theorem addParticle_boundary_spec_witness :
    clickAddParticle sEx (some 1) (some (-1)) (some 0) (some 0) = sEx ∧
    clickAddParticle sEx none (some 1) (some 0) (some 0) = sEx ∧
    clickAddParticle sEx (some 1) (some 2) (some 0) (some 0) =
      addParticle sEx 1 2 0 0 ∧
    (addParticle sEx 1 2 0 0).particles =
      sEx.particles ++
        [{ id := "p" ++ toString sEx.particleIdCounter, q := 1, m := 2,
           x := 0, y := 0, vx := 0, vy := 0, trail := [],
           selected := false }] :=
  ⟨(addParticle_boundary_spec sEx 1 (-1) 0 0 none (some 1) (some 0)
      (some 0)).1 (by norm_num),
   (addParticle_boundary_spec sEx 1 (-1) 0 0 none (some 1) (some 0)
      (some 0)).2.1 (Or.inl rfl),
   (addParticle_boundary_spec sEx 1 2 0 0 none none none none).2.2.1
      (by norm_num),
   (addParticle_boundary_spec sEx 1 2 0 0 none none none none).2.2.2.1⟩

end LFV

end
